import Mathlib

/-!
Shallow embedding of the backend-pool management and selection core of the
go-load-balancer repository: the `Backend` record, the three selection
strategies (round-robin, least-connections, IP-hash), the health-check
classification, and the startup configuration validation.

Modelling conventions:
* Go `int32` fields (`Connections`, `SuccessCount`, `ErrorCount`) are `Int`
  values together with the wrapping operation `wrap32`, which is the exact
  semantics of `atomic.AddInt32` (two's-complement wraparound at ±2^31).
* The round-robin `uint64` cursor is a `Nat` reduced modulo `2^64` exactly
  where the Go `uint64` addition wraps.
* Go pointers `*Backend` are represented by positions in the strategy's
  backend list where the selected backend is mutated (least-connections),
  and by the `Backend` value itself where it is only read.
* The `*http.Request` argument is reduced to the three fields the source
  reads (`X-Forwarded-For`, `X-Real-IP`, `RemoteAddr`); a header's absence
  is the empty string, exactly as `http.Header.Get` reports it.
* Library calls that are not part of the repository (`crypto/md5`,
  `net.SplitHostPort`, the HTTP client) are abstracted: md5 is a parameter
  producing a digest byte list, and the HTTP probe's outcome is an explicit
  `ProbeOutcome` value.
-/

namespace GoLB

/-- Two's-complement wraparound of a 32-bit signed integer: the result is
the unique value in `[-2^31, 2^31)` congruent to `x` modulo `2^32`. This is
the arithmetic `atomic.AddInt32` performs on Go `int32` values. -/
def wrap32 (x : Int) : Int :=
  (x + 2 ^ 31) % 2 ^ 32 - 2 ^ 31

/-- The `Backend` struct of `balancer/interfaces.go`: URL (identity, kept as
its string form), liveness flag, in-flight connection count and the two
health counters (all `int32` in the source). -/
structure Backend where
  url : String
  alive : Bool
  connections : Int
  successCount : Int
  errorCount : Int
deriving DecidableEq

/-- Number of backends whose `Alive` flag is set: the `k` of the spec. -/
def countAlive (bs : List Backend) : Nat :=
  (bs.filter (fun b => b.alive)).length

/-! ## Round-robin strategy (`RoundRobinBalancer`) -/

/-- State of a `RoundRobinBalancer`: the backend list and the `uint64`
cursor `current` (a `Nat` kept below `2^64` by the wrap in selection;
`NewRoundRobinBalancer` starts it at 0). -/
structure RoundRobinBalancer where
  backends : List Backend
  current : Nat
deriving DecidableEq

/-- Model of `RoundRobinBalancer.SelectBackend`: return nil on an empty list, filter
to the alive backends, return nil if none, otherwise advance the cursor by
one (`atomic.AddUint64` returns the new value, wrapping at `2^64`) and
index the alive list at `newCurrent mod aliveCount`. The unused
`*http.Request` argument is omitted. -/
def RoundRobinBalancer.selectBackend (rb : RoundRobinBalancer) :
    Option Backend × RoundRobinBalancer :=
  if rb.backends.length = 0 then (none, rb)
  else
    let aliveBackends := rb.backends.filter (fun b => b.alive)
    if aliveBackends.length = 0 then (none, rb)
    else
      let newCurrent := (rb.current + 1) % 2 ^ 64
      let index := newCurrent % aliveBackends.length
      (aliveBackends.get? index, { rb with current := newCurrent })

/-- State after `n` successive round-robin selections. -/
def rrIterate : Nat → RoundRobinBalancer → RoundRobinBalancer
  | 0, s => s
  | n + 1, s => rrIterate n (s.selectBackend).2

/-- Result of the `(n+1)`-st round-robin selection (0-indexed). -/
def rrNth (n : Nat) (s : RoundRobinBalancer) : Option Backend :=
  ((rrIterate n s).selectBackend).1

/-! ## Least-connections strategy (`LeastConnectionsBalancer`) -/

/-- State of a `LeastConnectionsBalancer`: just the backend list. -/
structure LeastConnectionsBalancer where
  backends : List Backend
deriving DecidableEq

/-- The scan loop of `LeastConnectionsBalancer.SelectBackend`: walk the list
keeping the selected position (`sel`, a pointer in the source) and
`minConnections` (`m`, initialised to the sentinel `-1`); skip dead
backends; take a backend when `minConnections == -1 || connections <
minConnections`. `i` is the position of the list head in the full backend
list. -/
def lcGo : List Backend → Nat → Option Nat → Int → Option Nat × Int
  | [], _, sel, m => (sel, m)
  | b :: rest, i, sel, m =>
    if b.alive = false then lcGo rest (i + 1) sel m
    else if m = -1 ∨ b.connections < m then lcGo rest (i + 1) (some i) b.connections
    else lcGo rest (i + 1) sel m

/-- Increment (with `int32` wraparound, as `atomic.AddInt32(…, 1)` does) the
connection count of the backend at position `i`. -/
def incConnAt : List Backend → Nat → List Backend
  | [], _ => []
  | b :: rest, 0 => { b with connections := wrap32 (b.connections + 1) } :: rest
  | b :: rest, n + 1 => b :: incConnAt rest n

/-- Decrement (with `int32` wraparound, as `atomic.AddInt32(…, -1)` does)
the connection count of the backend at position `i`. -/
def decConnAt : List Backend → Nat → List Backend
  | [], _ => []
  | b :: rest, 0 => { b with connections := wrap32 (b.connections - 1) } :: rest
  | b :: rest, n + 1 => b :: decConnAt rest n

/-- Model of `LeastConnectionsBalancer.SelectBackend`: nil on an empty list,
otherwise scan for the alive backend with minimal connection count
(sentinel `-1`), and if one was selected atomically increment its count.
The selected backend is returned as its position in the list (the source
returns the pointer, whose `Connections` field shows the increment). -/
def LeastConnectionsBalancer.selectBackend (lcb : LeastConnectionsBalancer) :
    Option Nat × LeastConnectionsBalancer :=
  if lcb.backends.length = 0 then (none, lcb)
  else
    match (lcGo lcb.backends 0 none (-1)).1 with
    | none => (none, lcb)
    | some i => (some i, ⟨incConnAt lcb.backends i⟩)

/-- Model of `LeastConnectionsBalancer.DecrementConnections`: atomically decrement
the given backend's connection count (the pointer argument is rendered as
the backend's position `i`). -/
def LeastConnectionsBalancer.decrementConnections
    (lcb : LeastConnectionsBalancer) (i : Nat) : LeastConnectionsBalancer :=
  ⟨decConnAt lcb.backends i⟩

/-- State after `n` successive least-connections selections (each result
discarded, no completions). -/
def lcRun : Nat → LeastConnectionsBalancer → LeastConnectionsBalancer
  | 0, s => s
  | n + 1, s => lcRun n (s.selectBackend).2

/-- Sum of all backends' connection counts. -/
def connSum (bs : List Backend) : Int :=
  (bs.map (fun b => b.connections)).sum

/-! ## IP-hash strategy (`IPHashBalancer`) -/

/-- The fields of `*http.Request` that `getClientIP` reads. An absent
header is the empty string (what `http.Header.Get` returns). -/
structure Request where
  xForwardedFor : String
  xRealIP : String
  remoteAddr : String

/-- Simplified model of `net.SplitHostPort` (standard library, not
repository code) for the unbracketed `host:port` form: succeeds exactly
when the address has a single colon; bracketed IPv6 literals are not
modelled. No claim depends on its internals. -/
def splitHostPort (s : String) : Option (String × String) :=
  match s.splitOn ":" with
  | [h, p] => some (h, p)
  | _ => none

/-- Model of `IPHashBalancer.getClientIP`: first entry of `X-Forwarded-For`
(whitespace-trimmed), else `X-Real-IP`, else the host part of
`RemoteAddr` (the whole `RemoteAddr` if `net.SplitHostPort` fails). -/
def getClientIP (r : Request) : String :=
  if r.xForwardedFor ≠ "" then ((r.xForwardedFor.splitOn ",").headD "").trim
  else if r.xRealIP ≠ "" then r.xRealIP
  else
    match splitHostPort r.remoteAddr with
    | none => r.remoteAddr
    | some (host, _) => host

/-- Hex digit value of an ASCII code, as `strconv.ParseInt` with base 16
accepts it: `0`–`9`, `a`–`f`, `A`–`F`. -/
def hexDigitVal (c : Nat) : Option Nat :=
  if 48 ≤ c ∧ c ≤ 57 then some (c - 48)
  else if 97 ≤ c ∧ c ≤ 102 then some (c - 87)
  else if 65 ≤ c ∧ c ≤ 70 then some (c - 55)
  else none

/-- Accumulating base-16 digit scan of `strconv.ParseInt`. -/
def parseHexDigits : List Nat → Nat → Option Nat
  | [], acc => some acc
  | c :: cs, acc =>
    match hexDigitVal c with
    | none => none
    | some v => parseHexDigits cs (16 * acc + v)

/-- Model of `strconv.ParseInt(s, 16, 64)` (standard library) on the inputs
this program produces: a non-empty string of bare hex digits, no sign and
no base prefix; fails on an empty string, a non-hex character, or a value
exceeding the `int64` maximum. The string is its list of byte codes. -/
def parseIntHex64 (s : List Nat) : Option Int :=
  match s with
  | [] => none
  | _ :: _ =>
    match parseHexDigits s 0 with
    | none => none
    | some n => if n ≤ 2 ^ 63 - 1 then some (n : Int) else none

/-- ASCII code of the lowercase hex digit for `n < 16`, as `fmt.Sprintf`
with verb `%x` emits it. -/
def hexDigitChar (n : Nat) : Nat :=
  if n < 10 then 48 + n else 87 + n

/-- Model of `fmt.Sprintf("%x", bytes)` on a byte slice: two lowercase hex digits per byte, as the
list of byte codes of the resulting string. -/
def hexEncode : List Nat → List Nat
  | [] => []
  | b :: rest => hexDigitChar (b / 16) :: hexDigitChar (b % 16) :: hexEncode rest

/-- The digest-processing part of `IPHashBalancer.hashIP`: hex-encode the
first 4 bytes of the md5 digest, `strconv.ParseInt(…, 16, 64)` the result,
return 0 on a parse error, else the `uint32` conversion of the parsed
`int64` (its value modulo `2^32`). -/
def hashIPofDigest (digest : List Nat) : Nat :=
  match parseIntHex64 (hexEncode (digest.take 4)) with
  | none => 0
  | some v => (v % 2 ^ 32).toNat

/-- Model of `IPHashBalancer.hashIP`: md5 the client IP string (md5 is standard
library and enters as the parameter `md5sum`, a function producing the
digest's byte list) and post-process the digest. -/
def hashIP (md5sum : String → List Nat) (ip : String) : Nat :=
  hashIPofDigest (md5sum ip)

/-- State of an `IPHashBalancer`: just the backend list. -/
structure IPHashBalancer where
  backends : List Backend
deriving DecidableEq

/-- Model of `IPHashBalancer.SelectBackend`: nil on an empty list, filter to alive
backends, nil if none, else hash the derived client IP and index the alive
list at `hash mod aliveCount`. The state (second component) is returned
untouched: this strategy mutates nothing. -/
def IPHashBalancer.selectBackend (md5sum : String → List Nat) (request : Request)
    (ihb : IPHashBalancer) : Option Backend × IPHashBalancer :=
  if ihb.backends.length = 0 then (none, ihb)
  else
    let aliveBackends := ihb.backends.filter (fun b => b.alive)
    if aliveBackends.length = 0 then (none, ihb)
    else
      let clientIP := getClientIP request
      let hash := hashIP md5sum clientIP
      let index := hash % aliveBackends.length
      (aliveBackends.get? index, ihb)

/-! ## Health checking (`DefaultHealthChecker.CheckHealth`) -/

/-- Outcome of one health probe against a backend, abstracting the HTTP
client: request construction failed (`http.NewRequestWithContext` error),
the round trip failed (`client.Do` error: network failure or timeout), or a
response with the given status code arrived. -/
inductive ProbeOutcome where
  | reqError : ProbeOutcome
  | netError : ProbeOutcome
  | response : Int → ProbeOutcome
deriving DecidableEq

/-- Model of `DefaultHealthChecker.CheckHealth` on a given probe outcome: a request
construction error returns false (no counter touched); a round-trip error
increments `ErrorCount` and returns false; a status in `[200, 300)`
increments `SuccessCount` and returns true; any other status increments
`ErrorCount` and returns false. Counter increments wrap as `int32`. -/
def checkHealth (out : ProbeOutcome) (b : Backend) : Bool × Backend :=
  match out with
  | .reqError => (false, b)
  | .netError => (false, { b with errorCount := wrap32 (b.errorCount + 1) })
  | .response status =>
    if 200 ≤ status ∧ status < 300 then
      (true, { b with successCount := wrap32 (b.successCount + 1) })
    else
      (false, { b with errorCount := wrap32 (b.errorCount + 1) })

/-! ## Configuration validation (`main.go`) -/

/-- The `Config` struct of `main.go`. `time.Duration` is an `int64`
nanosecond count, kept as `Int`. -/
structure Config where
  port : String
  backends : List String
  algorithm : String
  healthCheckInterval : Int
  healthCheckTimeout : Int

/-- Lookup in the `validAlgorithms` map literal of `validateConfig` (a map
from the three names to `true`; a missing key yields `false`). -/
def validAlgorithm (a : String) : Bool :=
  decide (a = "round-robin" ∨ a = "least-connections" ∨ a = "ip-hash")

/-- Model of `validateConfig`: reject an empty backend list, an unknown algorithm
name, a non-positive health-check interval, a non-positive health-check
timeout, in that order; `none` means the configuration is accepted. -/
def validateConfig (c : Config) : Option String :=
  if c.backends.length = 0 then
    some "at least one backend must be specified"
  else if validAlgorithm c.algorithm = false then
    some "invalid algorithm"
  else if c.healthCheckInterval ≤ 0 then
    some "health check interval must be positive"
  else if c.healthCheckTimeout ≤ 0 then
    some "health check timeout must be positive"
  else
    none

/-! ## Concrete backends and states used by witnesses and counterexamples -/

/-- A concrete alive backend with zeroed counters. -/
def backendA : Backend := ⟨"http://localhost:3001", true, 0, 0, 0⟩

/-- A second concrete alive backend. -/
def backendB : Backend := ⟨"http://localhost:3002", true, 0, 0, 0⟩

/-- A third concrete alive backend. -/
def backendC : Backend := ⟨"http://localhost:3003", true, 0, 0, 0⟩

/-- A freshly constructed round-robin balancer (cursor 0) holding the three
backends in insertion order. -/
def rrFresh : RoundRobinBalancer := ⟨[backendA, backendB, backendC], 0⟩

/-! ## Basic lemmas -/

theorem wrap32_eq_self {x : Int} (h1 : -2 ^ 31 ≤ x) (h2 : x < 2 ^ 31) :
    wrap32 x = x := by
  unfold wrap32
  omega

theorem wrap32_dec_inc {c : Int} (h1 : -2 ^ 31 ≤ c) (h2 : c < 2 ^ 31) :
    wrap32 (wrap32 (c + 1) - 1) = c := by
  unfold wrap32
  omega

theorem alive_of_mem_filter {bs : List Backend} {b : Backend}
    (h : b ∈ bs.filter (fun b => b.alive)) : b.alive = true :=
  (List.mem_filter.mp h).2

theorem countAlive_pos_of_alive {bs : List Backend} {b : Backend}
    (hb : b ∈ bs) (ha : b.alive = true) : 0 < countAlive bs := by
  have : b ∈ bs.filter (fun b => b.alive) := List.mem_filter.mpr ⟨hb, ha⟩
  exact List.length_pos.mpr (List.ne_nil_of_mem this)

theorem length_pos_of_countAlive {bs : List Backend} (h : 0 < countAlive bs) :
    bs.length ≠ 0 := by
  intro h0
  rw [List.length_eq_zero] at h0
  subst h0
  simp [countAlive] at h

/-! ## Round-robin selection lemmas -/

theorem rr_select_of_alive (rb : RoundRobinBalancer)
    (hk : 0 < countAlive rb.backends) :
    rb.selectBackend =
      ((rb.backends.filter (fun b => b.alive)).get?
          (((rb.current + 1) % 2 ^ 64) % countAlive rb.backends),
        { rb with current := (rb.current + 1) % 2 ^ 64 }) := by
  have hne := length_pos_of_countAlive hk
  have hfil : ¬ (rb.backends.filter (fun b => b.alive)).length = 0 := by
    intro h
    rw [countAlive] at hk
    omega
  unfold RoundRobinBalancer.selectBackend
  rw [if_neg hne, if_neg hfil]
  rfl

theorem rrIterate_state (bs : List Backend) (c n : Nat)
    (hk : 0 < countAlive bs) (hn : c + n < 2 ^ 64) :
    rrIterate n ⟨bs, c⟩ = ⟨bs, c + n⟩ := by
  induction n generalizing c with
  | zero => rfl
  | succ n ih =>
    have hstep := rr_select_of_alive ⟨bs, c⟩ hk
    have hmod : (c + 1) % 2 ^ 64 = c + 1 := Nat.mod_eq_of_lt (by omega)
    show rrIterate n (RoundRobinBalancer.selectBackend ⟨bs, c⟩).2 = _
    rw [hstep]
    simp only [hmod]
    rw [ih (c + 1) (by omega)]
    congr 1
    omega

theorem rrNth_formula (bs : List Backend) (c n : Nat)
    (hk : 0 < countAlive bs) (hn : c + n + 1 < 2 ^ 64) :
    rrNth n ⟨bs, c⟩ =
      (bs.filter (fun b => b.alive)).get? ((c + n + 1) % countAlive bs) := by
  unfold rrNth
  rw [rrIterate_state bs c n hk (by omega), rr_select_of_alive _ hk]
  simp only
  rw [Nat.mod_eq_of_lt (show c + n + 1 < 2 ^ 64 by omega)]

/-- For `0 < k` every residue `j < k` is hit by `(c + i + 1) % k` for some
`i < k`: the cursor sweep covers all positions of the alive list. -/
theorem cycle_hit (c k j : Nat) (hk : 0 < k) (hj : j < k) :
    ∃ i, i < k ∧ (c + i + 1) % k = j := by
  have hrk : (c + 1) % k < k := Nat.mod_lt _ hk
  refine ⟨(j + k - (c + 1) % k) % k, Nat.mod_lt _ hk, ?_⟩
  have h1 : c + (j + k - (c + 1) % k) % k + 1 = (c + 1) + (j + k - (c + 1) % k) % k := by
    omega
  rw [h1, Nat.add_mod_mod]
  have h2 : (c + 1) + (j + k - (c + 1) % k) ≡ (c + 1) % k + (j + k - (c + 1) % k) [MOD k] :=
    Nat.ModEq.add_right _ (Nat.mod_modEq _ _).symm
  have h3 : (c + 1) % k + (j + k - (c + 1) % k) = j + k := by omega
  have h4 : j + k ≡ j [MOD k] := by
    show (j + k) % k = j % k
    exact Nat.add_mod_right j k
  have h5 : (c + 1) + (j + k - (c + 1) % k) ≡ j [MOD k] := (h2.trans (by rw [h3])).trans h4
  calc ((c + 1) + (j + k - (c + 1) % k)) % k = j % k := h5
    _ = j := Nat.mod_eq_of_lt hj

/-! ## Claims C3, C4 (round-robin sequences) -/

/-- Claim C3, counterexample: on a freshly constructed round-robin balancer
with three alive backends and cursor 0, the first `SelectBackend` call
returns `backend[1]`, not `backend[0]` (`atomic.AddUint64` yields the new
cursor value 1, so the first index is `1 mod 3`). -/
theorem claim_C3_counterexample :
    rrNth 0 rrFresh = some backendB ∧ rrNth 0 rrFresh ≠ some backendA := by
  decide

/-- Claim C3 (amended): starting from a freshly constructed round-robin
balancer with three alive backends added in order, the first call to
`SelectBackend` returns `backend[1]` and the second call returns
`backend[2]`. -/
theorem claim_C3_amended (b0 b1 b2 : Backend) (h0 : b0.alive = true)
    (h1 : b1.alive = true) (h2 : b2.alive = true) :
    rrNth 0 ⟨[b0, b1, b2], 0⟩ = some b1 ∧ rrNth 1 ⟨[b0, b1, b2], 0⟩ = some b2 := by
  have hfil : ([b0, b1, b2].filter (fun b => b.alive)) = [b0, b1, b2] := by
    simp [List.filter, h0, h1, h2]
  have hk : countAlive [b0, b1, b2] = 3 := by
    rw [countAlive, hfil]
    rfl
  have hkpos : 0 < countAlive [b0, b1, b2] := by omega
  constructor
  · rw [rrNth_formula [b0, b1, b2] 0 0 hkpos (by norm_num), hfil, hk]
    rfl
  · rw [rrNth_formula [b0, b1, b2] 0 1 hkpos (by norm_num), hfil, hk]
    rfl

/-- Claim C3, witness: the amended statement evaluated on the three
concrete backends. -/
theorem claim_C3_witness :
    rrNth 0 rrFresh = some backendB ∧ rrNth 1 rrFresh = some backendC :=
  claim_C3_amended backendA backendB backendC rfl rfl rfl

/-- A round-robin state whose `uint64` cursor is two steps from overflow:
the next three selections index the alive list at `(2^64 - 1) % 3 = 0`,
`0 % 3 = 0` and `1 % 3 = 1`. -/
def rrWrapState : RoundRobinBalancer := ⟨[backendA, backendB, backendC], 2 ^ 64 - 2⟩

/-- Claim C4, counterexample: with a fixed alive set of size 3 and the
cursor at `2^64 - 2`, the three consecutive selections return backends
`[0]`, `[0]`, `[1]` — the alive backend `backend[2]` is never visited, so
the run does not visit every alive backend and the cursor does not wrap
exactly modulo 3 (the `uint64` wrap at `2^64` breaks the rotation). -/
theorem claim_C4_counterexample :
    countAlive rrWrapState.backends = 3 ∧
      backendC ∈ rrWrapState.backends ∧ backendC.alive = true ∧
      (∀ i, i < 3 → rrNth i rrWrapState ≠ some backendC) := by
  decide

/-- Claim C4 (amended): for round-robin over a fixed alive set of size
`k ≥ 1`, provided the run does not straddle the `uint64` cursor overflow
(`current + k < 2^64`), the `i`-th of `k` consecutive selections is the
alive backend at position `(current + i + 1) mod k` — so two runs differ
only by their starting offset and the cursor wraps exactly modulo `k` —
and the `k` selections visit every alive backend at least once. -/
theorem claim_C4_amended (bs : List Backend) (c k : Nat)
    (hk : countAlive bs = k) (hpos : 0 < k) (hwrap : c + k < 2 ^ 64) :
    (∀ i, i < k →
        rrNth i ⟨bs, c⟩ = (bs.filter (fun b => b.alive)).get? ((c + i + 1) % k))
    ∧ (∀ j, j < k →
        ∃ i, i < k ∧ rrNth i ⟨bs, c⟩ = (bs.filter (fun b => b.alive)).get? j) := by
  subst hk
  constructor
  · intro i hi
    exact rrNth_formula bs c i hpos (by omega)
  · intro j hj
    obtain ⟨i, hik, hmod⟩ := cycle_hit c (countAlive bs) j hpos hj
    refine ⟨i, hik, ?_⟩
    rw [rrNth_formula bs c i hpos (by omega), hmod]

/-- Claim C4, witness: the amended statement applied to the fresh
three-backend balancer, first selection. -/
theorem claim_C4_witness :
    rrNth 0 ⟨[backendA, backendB, backendC], 0⟩ =
      ([backendA, backendB, backendC].filter (fun b => b.alive)).get? ((0 + 0 + 1) % 3) :=
  (claim_C4_amended [backendA, backendB, backendC] 0 3 (by decide) (by norm_num)
    (by norm_num)).1 0 (by norm_num)

/-! ## Claim C5 (IP-hash determinism) -/

/-- Claim C5: two IP-hash selections that derive the same client
identifier, against the same registry state, return the same backend: the
selection is a function of the derived client IP and the backend list
alone. -/
theorem claim_C5 (md5sum : String → List Nat) (r1 r2 : Request)
    (ihb : IPHashBalancer) (h : getClientIP r1 = getClientIP r2) :
    ihb.selectBackend md5sum r1 = ihb.selectBackend md5sum r2 := by
  unfold IPHashBalancer.selectBackend
  rw [h]

/-- A request carrying the client identity in `X-Real-IP`. -/
def reqW1 : Request := ⟨"", "10.0.0.1", "203.0.113.7:44821"⟩

/-- A different request (different peer address) deriving the same client
identifier from `X-Real-IP`. -/
def reqW2 : Request := ⟨"", "10.0.0.1", "198.51.100.9:55102"⟩

/-- Claim C5, witness: two concrete distinct requests deriving the client
identifier `10.0.0.1` select identically on a concrete two-backend
state. -/
theorem claim_C5_witness :
    IPHashBalancer.selectBackend (fun _ => [1, 2, 3, 4]) reqW1 ⟨[backendA, backendB]⟩ =
      IPHashBalancer.selectBackend (fun _ => [1, 2, 3, 4]) reqW2 ⟨[backendA, backendB]⟩ :=
  claim_C5 (fun _ => [1, 2, 3, 4]) reqW1 reqW2 ⟨[backendA, backendB]⟩ (by decide)

/-! ## Claim C8 (configuration validation) -/

/-- Claim C8: `validateConfig` accepts a configuration exactly when the
backend list is non-empty, the algorithm is one of the three supported
names, and both the health-check interval and timeout are positive;
otherwise it returns an error (and `main` exits via `log.Fatalf`). -/
theorem claim_C8 (c : Config) :
    validateConfig c = none ↔
      (c.backends ≠ [] ∧
        (c.algorithm = "round-robin" ∨ c.algorithm = "least-connections" ∨
          c.algorithm = "ip-hash") ∧
        0 < c.healthCheckInterval ∧ 0 < c.healthCheckTimeout) := by
  unfold validateConfig
  split_ifs with h1 h2 h3 h4
  · simp [List.length_eq_zero.mp h1]
  · rw [validAlgorithm, decide_eq_false_iff_not] at h2
    simp [h2]
  · have hn : ¬ 0 < c.healthCheckInterval := by omega
    simp [hn]
  · have hn : ¬ 0 < c.healthCheckTimeout := by omega
    simp [hn]
  · have hb : c.backends ≠ [] := by
      intro he
      exact h1 (by rw [he]; rfl)
    have h2t : validAlgorithm c.algorithm = true := by
      revert h2
      cases validAlgorithm c.algorithm <;> simp
    rw [validAlgorithm, decide_eq_true_eq] at h2t
    simp only [Option.some.injEq, eq_self_iff_true, true_iff]
    exact ⟨hb, h2t, by omega, by omega⟩

/-- A concrete valid configuration. -/
def configW : Config := ⟨"8080", ["http://localhost:3001"], "round-robin", 30, 5⟩

/-- Claim C8, witness: the concrete configuration is accepted. -/
theorem claim_C8_witness : validateConfig configW = none :=
  (claim_C8 configW).mpr (by decide)

/-! ## Claim C9 (selection frame property) -/

/-- Claim C9: round-robin selection leaves every backend record untouched
(only the cursor changes), and IP-hash selection leaves the whole balancer
state untouched; neither strategy requires a connection release after
selection. -/
theorem claim_C9 :
    (∀ rb : RoundRobinBalancer, ((rb.selectBackend).2).backends = rb.backends)
    ∧ (∀ (md5sum : String → List Nat) (r : Request) (ihb : IPHashBalancer),
        (ihb.selectBackend md5sum r).2 = ihb) := by
  constructor
  · intro rb
    by_cases h1 : rb.backends.length = 0 <;>
      by_cases h2 : (rb.backends.filter (fun b => b.alive)).length = 0 <;>
        simp [RoundRobinBalancer.selectBackend, h1, h2]
  · intro md5sum r ihb
    by_cases h1 : ihb.backends.length = 0 <;>
      by_cases h2 : (ihb.backends.filter (fun b => b.alive)).length = 0 <;>
        simp [IPHashBalancer.selectBackend, h1, h2]

/-! ## Least-connections scan lemmas -/

theorem lcGo_isSome (l : List Backend) :
    ∀ (i j : Nat) (m : Int), ∃ j2, (lcGo l i (some j) m).1 = some j2 := by
  induction l with
  | nil => exact fun i j m => ⟨j, rfl⟩
  | cons b rest ih =>
    intro i j m
    unfold lcGo
    split_ifs with h1 h2
    · exact ih (i + 1) j m
    · exact ih (i + 1) i b.connections
    · exact ih (i + 1) j m

theorem lcGo_none_iff (l : List Backend) :
    ∀ i : Nat, (lcGo l i none (-1)).1 = none ↔ ∀ b ∈ l, b.alive = false := by
  induction l with
  | nil => intro i; simp [lcGo]
  | cons b rest ih =>
    intro i
    unfold lcGo
    by_cases hb : b.alive = false
    · rw [if_pos hb, ih (i + 1)]
      simp [hb, List.forall_mem_cons]
    · rw [if_neg hb, if_pos (Or.inl rfl : (-1 : Int) = -1 ∨ b.connections < -1)]
      obtain ⟨j2, hj2⟩ := lcGo_isSome rest (i + 1) i b.connections
      simp [hj2, List.forall_mem_cons, hb]

theorem lcGo_alive (l : List Backend) (bs : List Backend) :
    ∀ (i : Nat) (sel : Option Nat) (m : Int),
    (∀ k, l.get? k = bs.get? (i + k)) →
    (∀ j, sel = some j → ∃ b, bs.get? j = some b ∧ b.alive = true) →
    ∀ j2, (lcGo l i sel m).1 = some j2 → ∃ b, bs.get? j2 = some b ∧ b.alive = true := by
  induction l with
  | nil => exact fun i sel m _ hsel j2 h => hsel j2 h
  | cons b rest ih =>
    intro i sel m hlink hsel j2
    have hb : bs.get? i = some b := by simpa using (hlink 0).symm
    have hrest : ∀ k, rest.get? k = bs.get? (i + 1 + k) := by
      intro k
      have h := hlink (k + 1)
      rw [show i + (k + 1) = i + 1 + k by omega] at h
      simpa using h
    unfold lcGo
    split_ifs with h1 h2
    · exact ih (i + 1) sel m hrest hsel j2
    · refine ih (i + 1) (some i) b.connections hrest ?_ j2
      intro j hj
      obtain rfl : i = j := by injection hj
      exact ⟨b, hb, by revert h1; cases b.alive <;> simp⟩
    · exact ih (i + 1) sel m hrest hsel j2

theorem countAlive_eq_zero_iff (bs : List Backend) :
    countAlive bs = 0 ↔ ∀ b ∈ bs, b.alive = false := by
  rw [countAlive, List.length_eq_zero, List.filter_eq_nil_iff]
  constructor <;> intro h b hb
  · have hx := h b hb
    revert hx
    cases b.alive <;> simp
  · simp [h b hb]

theorem lc_select_eq (lcb : LeastConnectionsBalancer) (i : Nat)
    (h : (lcb.selectBackend).1 = some i) :
    (lcb.selectBackend).2 = ⟨incConnAt lcb.backends i⟩ := by
  unfold LeastConnectionsBalancer.selectBackend at h ⊢
  by_cases hlen : lcb.backends.length = 0
  · rw [if_pos hlen] at h
    simp at h
  · rw [if_neg hlen] at h ⊢
    cases hgo : (lcGo lcb.backends 0 none (-1)).1 with
    | none => rw [hgo] at h; simp at h
    | some j =>
      rw [hgo] at h
      obtain rfl : j = i := by simpa using h
      rfl

theorem lc_select_isSome (lcb : LeastConnectionsBalancer)
    (halive : ∃ b ∈ lcb.backends, b.alive = true) :
    ∃ i b, (lcb.selectBackend).1 = some i ∧
      lcb.backends.get? i = some b ∧ b.alive = true := by
  obtain ⟨bx, hbx, hax⟩ := halive
  have hlen : ¬ lcb.backends.length = 0 := by
    intro h0
    rw [List.length_eq_zero] at h0
    rw [h0] at hbx
    simp at hbx
  cases hgo : (lcGo lcb.backends 0 none (-1)).1 with
  | none =>
    exfalso
    have hall := (lcGo_none_iff lcb.backends 0).mp hgo
    rw [hall bx hbx] at hax
    cases hax
  | some j =>
    obtain ⟨b, hgb, hab⟩ := lcGo_alive lcb.backends lcb.backends 0 none (-1)
      (fun k => by simp) (fun j h => by cases h) j hgo
    refine ⟨j, b, ?_, hgb, hab⟩
    unfold LeastConnectionsBalancer.selectBackend
    rw [if_neg hlen, hgo]

/-! ## Connection counter update lemmas -/

theorem incConnAt_get_self : ∀ (bs : List Backend) (i : Nat) (b : Backend),
    bs.get? i = some b →
    (incConnAt bs i).get? i = some { b with connections := wrap32 (b.connections + 1) } := by
  intro bs
  induction bs with
  | nil => intro i b h; simp at h
  | cons x rest ih =>
    intro i b h
    cases i with
    | zero =>
      obtain rfl : x = b := by simpa using h
      rfl
    | succ n =>
      simp only [List.get?_cons_succ] at h
      simpa [incConnAt] using ih n b h

theorem decConnAt_get_self : ∀ (bs : List Backend) (i : Nat) (b : Backend),
    bs.get? i = some b →
    (decConnAt bs i).get? i = some { b with connections := wrap32 (b.connections - 1) } := by
  intro bs
  induction bs with
  | nil => intro i b h; simp at h
  | cons x rest ih =>
    intro i b h
    cases i with
    | zero =>
      obtain rfl : x = b := by simpa using h
      rfl
    | succ n =>
      simp only [List.get?_cons_succ] at h
      simpa [decConnAt] using ih n b h

theorem incConnAt_get_ne : ∀ (bs : List Backend) (i j : Nat), j ≠ i →
    (incConnAt bs i).get? j = bs.get? j := by
  intro bs
  induction bs with
  | nil => intro i j _; simp [incConnAt]
  | cons x rest ih =>
    intro i j hji
    cases i with
    | zero =>
      cases j with
      | zero => exact absurd rfl hji
      | succ n => rfl
    | succ m =>
      cases j with
      | zero => rfl
      | succ n =>
        simpa [incConnAt] using ih m n (by omega)

theorem mem_incConnAt : ∀ (bs : List Backend) (i : Nat) (b2 : Backend),
    b2 ∈ incConnAt bs i →
    b2 ∈ bs ∨ ∃ b1, b1 ∈ bs ∧ b2 = { b1 with connections := wrap32 (b1.connections + 1) } := by
  intro bs
  induction bs with
  | nil => intro i b2 h; simp [incConnAt] at h
  | cons x rest ih =>
    intro i b2 h
    cases i with
    | zero =>
      rcases List.mem_cons.mp h with h | h
      · exact Or.inr ⟨x, List.mem_cons_self x rest, h⟩
      · exact Or.inl (List.mem_cons_of_mem x h)
    | succ n =>
      rcases List.mem_cons.mp h with h | h
      · exact Or.inl (h ▸ List.mem_cons_self x rest)
      · rcases ih n b2 h with h | ⟨b1, hb1, hEq⟩
        · exact Or.inl (List.mem_cons_of_mem x h)
        · exact Or.inr ⟨b1, List.mem_cons_of_mem x hb1, hEq⟩

theorem exists_alive_incConnAt (bs : List Backend) (i : Nat)
    (h : ∃ b ∈ bs, b.alive = true) : ∃ b ∈ incConnAt bs i, b.alive = true := by
  obtain ⟨bx, hbx, hax⟩ := h
  obtain ⟨k, hk⟩ := List.mem_iff_get?.mp hbx
  by_cases hki : k = i
  · subst hki
    have hget := incConnAt_get_self bs k bx hk
    exact ⟨_, List.get?_mem hget, hax⟩
  · have hget : (incConnAt bs i).get? k = some bx := by
      rw [incConnAt_get_ne bs i k hki]
      exact hk
    exact ⟨bx, List.get?_mem hget, hax⟩

theorem connSum_cons (x : Backend) (l : List Backend) :
    connSum (x :: l) = x.connections + connSum l := by
  simp [connSum]

theorem connSum_incConnAt : ∀ (bs : List Backend) (i : Nat) (b : Backend),
    bs.get? i = some b →
    connSum (incConnAt bs i) = connSum bs + (wrap32 (b.connections + 1) - b.connections) := by
  intro bs
  induction bs with
  | nil => intro i b h; simp at h
  | cons x rest ih =>
    intro i b h
    cases i with
    | zero =>
      obtain rfl : x = b := by simpa using h
      show connSum ({ x with connections := wrap32 (x.connections + 1) } :: rest) = _
      rw [connSum_cons, connSum_cons]
      simp only
      ring
    | succ n =>
      simp only [List.get?_cons_succ] at h
      show connSum (x :: incConnAt rest n) = _
      rw [connSum_cons, connSum_cons, ih n b h]
      ring

/-! ## Selection totality and liveness (claim C1) -/

theorem rr_select_none_iff (rb : RoundRobinBalancer) :
    (rb.selectBackend).1 = none ↔ countAlive rb.backends = 0 := by
  by_cases hk : countAlive rb.backends = 0
  · by_cases h1 : rb.backends.length = 0
    · simp [RoundRobinBalancer.selectBackend, h1, hk]
    · have h2 : (rb.backends.filter (fun b => b.alive)).length = 0 := hk
      simp [RoundRobinBalancer.selectBackend, h1, h2, hk]
  · rw [rr_select_of_alive rb (Nat.pos_of_ne_zero hk)]
    simp only
    constructor
    · intro h
      exfalso
      have hidx : ((rb.current + 1) % 2 ^ 64) % countAlive rb.backends <
          (rb.backends.filter (fun b => b.alive)).length :=
        Nat.mod_lt _ (Nat.pos_of_ne_zero hk)
      rw [List.get?_eq_get hidx] at h
      cases h
    · intro h
      exact absurd h hk

theorem rr_select_alive (rb : RoundRobinBalancer) (b : Backend)
    (h : (rb.selectBackend).1 = some b) : b.alive = true := by
  by_cases hk : countAlive rb.backends = 0
  · rw [(rr_select_none_iff rb).mpr hk] at h
    cases h
  · rw [rr_select_of_alive rb (Nat.pos_of_ne_zero hk)] at h
    simp only at h
    exact alive_of_mem_filter (List.get?_mem h)

theorem ip_select_of_alive (md5sum : String → List Nat) (r : Request)
    (ihb : IPHashBalancer) (hk : 0 < countAlive ihb.backends) :
    ihb.selectBackend md5sum r =
      ((ihb.backends.filter (fun b => b.alive)).get?
          (hashIP md5sum (getClientIP r) % countAlive ihb.backends), ihb) := by
  have hne := length_pos_of_countAlive hk
  have hfil : ¬ (ihb.backends.filter (fun b => b.alive)).length = 0 := by
    rw [countAlive] at hk
    omega
  unfold IPHashBalancer.selectBackend
  rw [if_neg hne, if_neg hfil]
  rfl

theorem ip_select_none_iff (md5sum : String → List Nat) (r : Request)
    (ihb : IPHashBalancer) :
    (ihb.selectBackend md5sum r).1 = none ↔ countAlive ihb.backends = 0 := by
  by_cases hk : countAlive ihb.backends = 0
  · by_cases h1 : ihb.backends.length = 0
    · simp [IPHashBalancer.selectBackend, h1, hk]
    · have h2 : (ihb.backends.filter (fun b => b.alive)).length = 0 := hk
      simp [IPHashBalancer.selectBackend, h1, h2, hk]
  · rw [ip_select_of_alive md5sum r ihb (Nat.pos_of_ne_zero hk)]
    simp only
    constructor
    · intro h
      exfalso
      have hidx : hashIP md5sum (getClientIP r) % countAlive ihb.backends <
          (ihb.backends.filter (fun b => b.alive)).length :=
        Nat.mod_lt _ (Nat.pos_of_ne_zero hk)
      rw [List.get?_eq_get hidx] at h
      cases h
    · intro h
      exact absurd h hk

theorem ip_select_alive (md5sum : String → List Nat) (r : Request)
    (ihb : IPHashBalancer) (b : Backend)
    (h : (ihb.selectBackend md5sum r).1 = some b) : b.alive = true := by
  by_cases hk : countAlive ihb.backends = 0
  · rw [(ip_select_none_iff md5sum r ihb).mpr hk] at h
    cases h
  · rw [ip_select_of_alive md5sum r ihb (Nat.pos_of_ne_zero hk)] at h
    simp only at h
    exact alive_of_mem_filter (List.get?_mem h)

theorem lc_select_none_iff (lcb : LeastConnectionsBalancer) :
    (lcb.selectBackend).1 = none ↔ countAlive lcb.backends = 0 := by
  by_cases hlen : lcb.backends.length = 0
  · have hb : lcb.backends = [] := List.length_eq_zero.mp hlen
    simp [LeastConnectionsBalancer.selectBackend, hlen, hb, countAlive]
  · unfold LeastConnectionsBalancer.selectBackend
    rw [if_neg hlen]
    cases hgo : (lcGo lcb.backends 0 none (-1)).1 with
    | none =>
      have hall := (lcGo_none_iff lcb.backends 0).mp hgo
      simp [countAlive_eq_zero_iff]
      exact hall
    | some j =>
      have hnot : ¬ ∀ b ∈ lcb.backends, b.alive = false := by
        intro hall
        rw [(lcGo_none_iff lcb.backends 0).mpr hall] at hgo
        cases hgo
      constructor
      · intro h
        simp at h
      · intro h
        exact absurd ((countAlive_eq_zero_iff _).mp h) hnot

theorem lc_select_alive (lcb : LeastConnectionsBalancer) (i : Nat)
    (h : (lcb.selectBackend).1 = some i) :
    ∃ b, lcb.backends.get? i = some b ∧ b.alive = true := by
  unfold LeastConnectionsBalancer.selectBackend at h
  by_cases hlen : lcb.backends.length = 0
  · rw [if_pos hlen] at h
    simp at h
  · rw [if_neg hlen] at h
    cases hgo : (lcGo lcb.backends 0 none (-1)).1 with
    | none => rw [hgo] at h; simp at h
    | some j =>
      rw [hgo] at h
      obtain rfl : j = i := by simpa using h
      exact lcGo_alive lcb.backends lcb.backends 0 none (-1)
        (fun k => by rw [Nat.zero_add]) (fun j h => by cases h) j hgo

/-- Claim C1: for each of the three strategies, `SelectBackend` returns
`none` exactly when no backend is alive (`k = 0`), and any returned backend
has its alive flag set at the moment of the liveness check. -/
theorem claim_C1 :
    (∀ rb : RoundRobinBalancer,
        ((rb.selectBackend).1 = none ↔ countAlive rb.backends = 0) ∧
        ∀ b, (rb.selectBackend).1 = some b → b.alive = true)
    ∧ (∀ lcb : LeastConnectionsBalancer,
        ((lcb.selectBackend).1 = none ↔ countAlive lcb.backends = 0) ∧
        ∀ i, (lcb.selectBackend).1 = some i →
          ∃ b, lcb.backends.get? i = some b ∧ b.alive = true)
    ∧ (∀ (md5sum : String → List Nat) (r : Request) (ihb : IPHashBalancer),
        ((ihb.selectBackend md5sum r).1 = none ↔ countAlive ihb.backends = 0) ∧
        ∀ b, (ihb.selectBackend md5sum r).1 = some b → b.alive = true) :=
  ⟨fun rb => ⟨rr_select_none_iff rb, fun b h => rr_select_alive rb b h⟩,
   fun lcb => ⟨lc_select_none_iff lcb, fun i h => lc_select_alive lcb i h⟩,
   fun md5sum r ihb => ⟨ip_select_none_iff md5sum r ihb,
     fun b h => ip_select_alive md5sum r ihb b h⟩⟩

/-- Claim C1, witness: the liveness guarantee evaluated on concrete states
for all three strategies. -/
theorem claim_C1_witness :
    backendB.alive = true ∧
      (∃ b, ([backendA] : List Backend).get? 0 = some b ∧ b.alive = true) ∧
      backendA.alive = true :=
  ⟨(claim_C1.1 rrFresh).2 backendB (by decide),
   (claim_C1.2.1 ⟨[backendA]⟩).2 0 (by decide),
   (claim_C1.2.2 (fun _ => [1, 2, 3, 4]) reqW1 ⟨[backendA]⟩).2 backendA (by decide)⟩

/-! ## Claim C2 (least-connections counting laws) -/

theorem lcRun_connSum : ∀ (m : Nat) (bs : List Backend),
    (∃ b ∈ bs, b.alive = true) →
    (∀ b ∈ bs, -2 ^ 31 ≤ b.connections ∧ b.connections + m < 2 ^ 31) →
    connSum ((lcRun m ⟨bs⟩).backends) = connSum bs + m := by
  intro m
  induction m with
  | zero =>
    intro bs _ _
    simp [lcRun]
  | succ m ih =>
    intro bs halive hrange
    obtain ⟨i, b, hsel, hget, halb⟩ := lc_select_isSome ⟨bs⟩ halive
    have hbmem : b ∈ bs := List.get?_mem hget
    have hrb := hrange b hbmem
    have hwrap : wrap32 (b.connections + 1) = b.connections + 1 := by
      refine wrap32_eq_self (by omega) ?_
      have : ((m + 1 : Nat) : Int) = (m : Int) + 1 := by push_cast; ring
      omega
    have hstate : ((⟨bs⟩ : LeastConnectionsBalancer).selectBackend).2 =
        ⟨incConnAt bs i⟩ := lc_select_eq ⟨bs⟩ i hsel
    show connSum ((lcRun m ((⟨bs⟩ : LeastConnectionsBalancer).selectBackend).2).backends) = _
    rw [hstate]
    rw [ih (incConnAt bs i) (exists_alive_incConnAt bs i halive) ?_]
    · rw [connSum_incConnAt bs i b hget, hwrap]
      push_cast
      ring
    · intro b2 hb2
      rcases mem_incConnAt bs i b2 hb2 with h | ⟨b1, hb1, rfl⟩
      · have hr := hrange b2 h
        have : ((m + 1 : Nat) : Int) = (m : Int) + 1 := by push_cast; ring
        constructor <;> omega
      · have hr := hrange b1 hb1
        have hcast : ((m + 1 : Nat) : Int) = (m : Int) + 1 := by push_cast; ring
        have hw : wrap32 (b1.connections + 1) = b1.connections + 1 :=
          wrap32_eq_self (by omega) (by omega)
        simp only [hw]
        constructor <;> omega

/-- A backend whose `int32` connection counter sits at the maximum. -/
def backendMaxConn : Backend := ⟨"http://localhost:3001", true, 2 ^ 31 - 1, 0, 0⟩

/-- Claim C2, counterexample: with a single alive backend whose connection
count is `2^31 - 1`, one selection with no completions changes the sum of
connection counts by `-2^32 + 1`, not `+1`: `atomic.AddInt32` wraps the
`int32` counter to `-2^31`. -/
theorem claim_C2_counterexample :
    connSum ((lcRun 1 ⟨[backendMaxConn]⟩).backends) ≠ connSum [backendMaxConn] + 1 := by
  decide

/-- Claim C2 (amended): for least-connections with at least one alive
backend, provided no `int32` counter overflows during the run (every count
is at least `-2^31` and stays below `2^31` for all `m` increments), `m`
selections with no completions increase the sum of connection counts by
exactly `m`; and a selection followed by the paired
`DecrementConnections` on the selected backend restores that backend's
record — in particular its connection count — to its pre-selection
value. -/
theorem claim_C2_amended (bs : List Backend) (m : Nat)
    (halive : ∃ b ∈ bs, b.alive = true)
    (hrange : ∀ b ∈ bs, -2 ^ 31 ≤ b.connections ∧ b.connections + m < 2 ^ 31) :
    connSum ((lcRun m ⟨bs⟩).backends) = connSum bs + m
    ∧ ∀ i b, ((⟨bs⟩ : LeastConnectionsBalancer).selectBackend).1 = some i →
        bs.get? i = some b →
        ((((⟨bs⟩ : LeastConnectionsBalancer).selectBackend).2.decrementConnections i).backends).get? i
          = some b := by
  constructor
  · exact lcRun_connSum m bs halive hrange
  · intro i b hsel hget
    have hrb := hrange b (List.get?_mem hget)
    have hkey : wrap32 (wrap32 (b.connections + 1) - 1) = b.connections := by
      refine wrap32_dec_inc (by omega) ?_
      have : (0 : Int) ≤ (m : Int) := by positivity
      omega
    rw [lc_select_eq ⟨bs⟩ i hsel]
    show (decConnAt (incConnAt bs i) i).get? i = some b
    rw [decConnAt_get_self (incConnAt bs i) i _ (incConnAt_get_self bs i b hget)]
    show some { b with connections := wrap32 (wrap32 (b.connections + 1) - 1) } = some b
    rw [hkey]

/-- Claim C2, witness: two selections on a fresh single-backend state raise
the connection sum from 0 to 2, and the select/decrement round trip is
exercised by the amended theorem's instantiation. -/
theorem claim_C2_witness :
    connSum ((lcRun 2 ⟨[backendA]⟩).backends) = connSum [backendA] + 2 :=
  (claim_C2_amended [backendA] 2 (by decide) (by decide)).1

/-! ## Claim C7 (least-connections minimality and tie-break) -/

/-- Invariant of the least-connections scan after the positions `[0, i)` of
`bs` have been processed: either nothing was selected yet (`sel = none`,
`m` still the sentinel `-1`, every processed backend dead), or `sel` holds
the first processed alive position attaining the minimum processed alive
connection count `m`. -/
def LcAcc (bs : List Backend) (i : Nat) (sel : Option Nat) (m : Int) : Prop :=
  (sel = none ∧ m = -1 ∧ ∀ j b, j < i → bs.get? j = some b → b.alive = false)
  ∨ (∃ j b, sel = some j ∧ bs.get? j = some b ∧ b.alive = true ∧
      b.connections = m ∧ 0 ≤ m ∧ j < i ∧
      (∀ j2 b2, j2 < j → bs.get? j2 = some b2 → b2.alive = true → m < b2.connections) ∧
      (∀ j2 b2, j < j2 → j2 < i → bs.get? j2 = some b2 → b2.alive = true → m ≤ b2.connections))

theorem lcGo_inv (l : List Backend) (bs : List Backend) :
    ∀ (i : Nat) (sel : Option Nat) (m : Int),
    (∀ k, l.get? k = bs.get? (i + k)) →
    (∀ b ∈ l, 0 ≤ b.connections) →
    LcAcc bs i sel m →
    LcAcc bs (i + l.length) (lcGo l i sel m).1 (lcGo l i sel m).2 := by
  induction l with
  | nil =>
    intro i sel m _ _ hacc
    simpa [lcGo] using hacc
  | cons b rest ih =>
    intro i sel m hlink hpos hacc
    have hb : bs.get? i = some b := by simpa using (hlink 0).symm
    have hrest : ∀ k, rest.get? k = bs.get? (i + 1 + k) := by
      intro k
      have h := hlink (k + 1)
      rw [show i + (k + 1) = i + 1 + k by omega] at h
      simpa using h
    have hbpos : 0 ≤ b.connections := hpos b (List.mem_cons_self b rest)
    have hrpos : ∀ x ∈ rest, 0 ≤ x.connections :=
      fun x hx => hpos x (List.mem_cons_of_mem _ hx)
    rw [show i + (b :: rest).length = (i + 1) + rest.length by simp; omega]
    unfold lcGo
    split_ifs with h1 h2
    · -- current backend dead: accumulator carried over
      refine ih (i + 1) sel m hrest hrpos ?_
      rcases hacc with ⟨hs, hm, hall⟩ | ⟨j, bj, hsel, hgj, haj, hcj, hmj, hji, hlow, hup⟩
      · refine Or.inl ⟨hs, hm, ?_⟩
        intro j2 b2 hj2 hg2
        rcases Nat.lt_succ_iff_lt_or_eq.mp hj2 with h | h
        · exact hall j2 b2 h hg2
        · subst h
          rw [hb] at hg2
          obtain rfl : b = b2 := by injection hg2
          exact h1
      · refine Or.inr ⟨j, bj, hsel, hgj, haj, hcj, hmj, Nat.lt_succ_of_lt hji, hlow, ?_⟩
        intro j2 b2 hgt hlt hg2 ha2
        rcases Nat.lt_succ_iff_lt_or_eq.mp hlt with h | h
        · exact hup j2 b2 hgt h hg2 ha2
        · subst h
          rw [hb] at hg2
          obtain rfl : b = b2 := by injection hg2
          rw [h1] at ha2
          cases ha2
    · -- current backend alive and taken
      have halb : b.alive = true := by
        revert h1
        cases b.alive <;> simp
      refine ih (i + 1) (some i) b.connections hrest hrpos ?_
      rcases hacc with ⟨hs, hm, hall⟩ | ⟨j, bj, hsel, hgj, haj, hcj, hmj, hji, hlow, hup⟩
      · refine Or.inr ⟨i, b, rfl, hb, halb, rfl, hbpos, Nat.lt_succ_self i, ?_, ?_⟩
        · intro j2 b2 hlt hg2 ha2
          rw [hall j2 b2 hlt hg2] at ha2
          cases ha2
        · intro j2 b2 hgt hlt _ _
          omega
      · have hc : b.connections < m := by
          rcases h2 with h | h
          · omega
          · exact h
        refine Or.inr ⟨i, b, rfl, hb, halb, rfl, hbpos, Nat.lt_succ_self i, ?_, ?_⟩
        · intro j2 b2 hlt hg2 ha2
          rcases lt_trichotomy j2 j with h | h | h
          · exact lt_trans hc (hlow j2 b2 h hg2 ha2)
          · subst h
            rw [hgj] at hg2
            obtain rfl : bj = b2 := by injection hg2
            rw [← hcj] at hc
            exact hc
          · exact lt_of_lt_of_le hc (hup j2 b2 h hlt hg2 ha2)
        · intro j2 b2 hgt hlt _ _
          omega
    · -- current backend alive but not better than the accumulator
      rw [not_or] at h2
      obtain ⟨hmne, hnl⟩ := h2
      have hle : m ≤ b.connections := not_lt.mp hnl
      refine ih (i + 1) sel m hrest hrpos ?_
      rcases hacc with ⟨hs, hm, hall⟩ | ⟨j, bj, hsel, hgj, haj, hcj, hmj, hji, hlow, hup⟩
      · exact absurd hm hmne
      · refine Or.inr ⟨j, bj, hsel, hgj, haj, hcj, hmj, Nat.lt_succ_of_lt hji, hlow, ?_⟩
        intro j2 b2 hgt hlt hg2 ha2
        rcases Nat.lt_succ_iff_lt_or_eq.mp hlt with h | h
        · exact hup j2 b2 hgt h hg2 ha2
        · subst h
          rw [hb] at hg2
          obtain rfl : b = b2 := by injection hg2
          exact hle

/-- An alive backend with the (transiently possible) connection count `-1`. -/
def backendNegConn : Backend := ⟨"http://localhost:3001", true, -1, 0, 0⟩

/-- An alive backend with connection count 5. -/
def backendFiveConn : Backend := ⟨"http://localhost:3002", true, 5, 0, 0⟩

/-- Claim C7, counterexample: with alive backends holding connection counts
`[-1, 5]`, `SelectBackend` returns position 1 (count 5) although position 0
is alive with the strictly smaller count `-1`: the scan's `-1` sentinel for
"no minimum yet" collides with a genuine count of `-1` and re-selects the
later backend. -/
theorem claim_C7_counterexample :
    ((⟨[backendNegConn, backendFiveConn]⟩ : LeastConnectionsBalancer).selectBackend).1 = some 1 ∧
      [backendNegConn, backendFiveConn].get? 0 = some backendNegConn ∧
      backendNegConn.alive = true ∧
      backendNegConn.connections < backendFiveConn.connections := by
  decide

/-- Claim C7 (amended): for least-connections with at least one alive
backend, provided every backend's connection count is non-negative (the
registry's documented resting invariant, under which the `-1` sentinel is
unambiguous), `SelectBackend` returns the alive backend with the minimum
current connection count, the first such backend in insertion order when
several share the minimum. -/
theorem claim_C7_amended (lcb : LeastConnectionsBalancer)
    (halive : ∃ b ∈ lcb.backends, b.alive = true)
    (hpos : ∀ b ∈ lcb.backends, 0 ≤ b.connections) :
    ∃ i b, (lcb.selectBackend).1 = some i ∧
      lcb.backends.get? i = some b ∧ b.alive = true ∧
      (∀ j2 b2, lcb.backends.get? j2 = some b2 → b2.alive = true →
        b.connections ≤ b2.connections) ∧
      (∀ j2 b2, j2 < i → lcb.backends.get? j2 = some b2 → b2.alive = true →
        b.connections < b2.connections) := by
  obtain ⟨bx, hbx, hax⟩ := halive
  have hlen : ¬ lcb.backends.length = 0 := by
    intro h0
    rw [List.length_eq_zero] at h0
    rw [h0] at hbx
    simp at hbx
  have hinv := lcGo_inv lcb.backends lcb.backends 0 none (-1)
    (fun k => by rw [Nat.zero_add]) hpos
    (Or.inl ⟨rfl, rfl, fun j b hj _ => absurd hj (Nat.not_lt_zero j)⟩)
  rw [Nat.zero_add] at hinv
  rcases hinv with ⟨hs, _, hall⟩ | ⟨j, bj, hsel, hgj, haj, hcj, _, _, hlow, hup⟩
  · exfalso
    obtain ⟨k, hk⟩ := List.mem_iff_get?.mp hbx
    have hklen : k < lcb.backends.length := by
      by_contra hge
      rw [List.get?_eq_none.mpr (by omega)] at hk
      cases hk
    rw [hall k bx hklen hk] at hax
    cases hax
  · refine ⟨j, bj, ?_, hgj, haj, ?_, ?_⟩
    · unfold LeastConnectionsBalancer.selectBackend
      rw [if_neg hlen, hsel]
    · intro j2 b2 hg2 ha2
      have hlen2 : j2 < lcb.backends.length := by
        by_contra hge
        rw [List.get?_eq_none.mpr (by omega)] at hg2
        cases hg2
      rcases lt_trichotomy j2 j with h | h | h
      · have := hlow j2 b2 h hg2 ha2
        omega
      · subst h
        rw [hgj] at hg2
        obtain rfl : bj = b2 := by injection hg2
        omega
      · have := hup j2 b2 h hlen2 hg2 ha2
        omega
    · intro j2 b2 hlt hg2 ha2
      have := hlow j2 b2 hlt hg2 ha2
      omega

/-- Claim C7, witness: on two alive backends with counts 0 the amended
statement produces the first backend as the selected minimum. -/
theorem claim_C7_witness :
    ∃ i b, ((⟨[backendA, backendB]⟩ : LeastConnectionsBalancer).selectBackend).1 = some i ∧
      [backendA, backendB].get? i = some b ∧ b.alive = true ∧
      (∀ j2 b2, [backendA, backendB].get? j2 = some b2 → b2.alive = true →
        b.connections ≤ b2.connections) ∧
      (∀ j2 b2, j2 < i → [backendA, backendB].get? j2 = some b2 → b2.alive = true →
        b.connections < b2.connections) :=
  claim_C7_amended ⟨[backendA, backendB]⟩ (by decide) (by decide)

/-! ## Claim C6 (health-check classification and counters) -/

/-- A backend with non-zero health counters. -/
def backendHC : Backend := ⟨"http://localhost:3001", true, 0, 5, 7⟩

/-- Claim C6, counterexample: when constructing the probe request itself
fails, `CheckHealth` returns false (an unhealthy classification) but leaves
the error counter unchanged — the claim requires every unhealthy
classification to increment the error counter by exactly 1. -/
theorem claim_C6_counterexample :
    (checkHealth .reqError backendHC).1 = false ∧
      ((checkHealth .reqError backendHC).2).errorCount ≠ backendHC.errorCount + 1 ∧
      ((checkHealth .reqError backendHC).2).successCount = backendHC.successCount := by
  decide

/-- Claim C6 (amended): `CheckHealth` returns true exactly for a response
with status in `[200, 300)`; on a healthy classification it increments the
success counter by exactly 1 and leaves the error counter unchanged; on an
unhealthy classification caused by a round-trip failure (network failure or
timeout) or a non-2xx status it increments the error counter by exactly 1
and leaves the success counter unchanged, never both; but when
construction of the probe request itself fails it returns false without
touching either counter. Increments are exact provided the `int32` counter
is not at its maximum. -/
theorem claim_C6_amended (out : ProbeOutcome) (b : Backend)
    (hs1 : -2 ^ 31 ≤ b.successCount) (hs2 : b.successCount < 2 ^ 31 - 1)
    (he1 : -2 ^ 31 ≤ b.errorCount) (he2 : b.errorCount < 2 ^ 31 - 1) :
    ((checkHealth out b).1 = true ↔ ∃ s, out = .response s ∧ 200 ≤ s ∧ s < 300)
    ∧ ((checkHealth out b).1 = true →
        (checkHealth out b).2.successCount = b.successCount + 1 ∧
        (checkHealth out b).2.errorCount = b.errorCount)
    ∧ ((checkHealth out b).1 = false → out ≠ .reqError →
        (checkHealth out b).2.errorCount = b.errorCount + 1 ∧
        (checkHealth out b).2.successCount = b.successCount)
    ∧ (out = .reqError → (checkHealth out b).1 = false ∧ (checkHealth out b).2 = b) := by
  have hsw : wrap32 (b.successCount + 1) = b.successCount + 1 :=
    wrap32_eq_self (by omega) (by omega)
  have hew : wrap32 (b.errorCount + 1) = b.errorCount + 1 :=
    wrap32_eq_self (by omega) (by omega)
  cases out with
  | reqError =>
    refine ⟨?_, ?_, ?_, fun _ => ⟨rfl, rfl⟩⟩
    · simp [checkHealth]
    · intro h
      simp [checkHealth] at h
    · intro _ hne
      exact absurd rfl hne
  | netError =>
    refine ⟨?_, ?_, ?_, ?_⟩
    · simp [checkHealth]
    · intro h
      simp [checkHealth] at h
    · intro _ _
      exact ⟨by simp [checkHealth, hew], by simp [checkHealth]⟩
    · intro h
      simp at h
  | response s =>
    by_cases hcond : 200 ≤ s ∧ s < 300
    · refine ⟨?_, ?_, ?_, ?_⟩
      · constructor
        · intro _
          exact ⟨s, rfl, hcond.1, hcond.2⟩
        · intro _
          simp [checkHealth, hcond]
      · intro _
        exact ⟨by simp [checkHealth, hcond, hsw], by simp [checkHealth, hcond]⟩
      · intro hf
        simp [checkHealth, hcond] at hf
      · intro h
        simp at h
    · refine ⟨?_, ?_, ?_, ?_⟩
      · constructor
        · intro h
          simp [checkHealth, hcond] at h
        · rintro ⟨s2, heq, hge, hlt⟩
          obtain rfl : s = s2 := by injection heq
          exact absurd ⟨hge, hlt⟩ hcond
      · intro h
        simp [checkHealth, hcond] at h
      · intro _ _
        exact ⟨by simp [checkHealth, hcond, hew], by simp [checkHealth, hcond]⟩
      · intro h
        simp at h

/-- Claim C6, witness: a 204 response on a zero-counter backend classifies
as healthy. -/
theorem claim_C6_witness : (checkHealth (.response 204) backendA).1 = true :=
  ((claim_C6_amended (.response 204) backendA (by decide) (by decide) (by decide)
    (by decide)).1).mpr ⟨204, rfl, by norm_num, by norm_num⟩

/-! ## Claim C10 (hashIP never takes its error fallback) -/

theorem hexDigitVal_hexDigitChar : ∀ n, n < 16 → hexDigitVal (hexDigitChar n) = some n := by
  decide

/-- Claim C10: for any md5 digest (a byte list with at least 4 entries,
each below 256), the hex-encode/ParseInt pipeline of `hashIP` always
parses successfully — the `return 0` error fallback is unreachable — and
the result is the unsigned 32-bit big-endian interpretation of the first 4
digest bytes; the function is total and deterministic. -/
theorem claim_C10 (b0 b1 b2 b3 : Nat) (rest : List Nat)
    (h0 : b0 < 256) (h1 : b1 < 256) (h2 : b2 < 256) (h3 : b3 < 256) :
    parseIntHex64 (hexEncode ((b0 :: b1 :: b2 :: b3 :: rest).take 4)) =
      some ((b0 * 16777216 + b1 * 65536 + b2 * 256 + b3 : Nat) : Int)
    ∧ hashIPofDigest (b0 :: b1 :: b2 :: b3 :: rest) =
      b0 * 16777216 + b1 * 65536 + b2 * 256 + b3 := by
  have htake : (b0 :: b1 :: b2 :: b3 :: rest).take 4 = [b0, b1, b2, b3] := rfl
  have hd00 := hexDigitVal_hexDigitChar (b0 / 16) (by omega)
  have hd01 := hexDigitVal_hexDigitChar (b0 % 16) (by omega)
  have hd10 := hexDigitVal_hexDigitChar (b1 / 16) (by omega)
  have hd11 := hexDigitVal_hexDigitChar (b1 % 16) (by omega)
  have hd20 := hexDigitVal_hexDigitChar (b2 / 16) (by omega)
  have hd21 := hexDigitVal_hexDigitChar (b2 % 16) (by omega)
  have hd30 := hexDigitVal_hexDigitChar (b3 / 16) (by omega)
  have hd31 := hexDigitVal_hexDigitChar (b3 % 16) (by omega)
  have hparse : parseHexDigits (hexEncode [b0, b1, b2, b3]) 0 =
      some (b0 * 16777216 + b1 * 65536 + b2 * 256 + b3) := by
    show parseHexDigits
      [hexDigitChar (b0 / 16), hexDigitChar (b0 % 16), hexDigitChar (b1 / 16),
        hexDigitChar (b1 % 16), hexDigitChar (b2 / 16), hexDigitChar (b2 % 16),
        hexDigitChar (b3 / 16), hexDigitChar (b3 % 16)] 0 = _
    simp only [parseHexDigits, hd00, hd01, hd10, hd11, hd20, hd21, hd30, hd31]
    congr 1
    omega
  have hval : b0 * 16777216 + b1 * 65536 + b2 * 256 + b3 ≤ 2 ^ 63 - 1 := by omega
  have hfull : parseIntHex64 (hexEncode ((b0 :: b1 :: b2 :: b3 :: rest).take 4)) =
      some ((b0 * 16777216 + b1 * 65536 + b2 * 256 + b3 : Nat) : Int) := by
    rw [htake]
    show (match parseHexDigits (hexEncode [b0, b1, b2, b3]) 0 with
      | none => none
      | some n => if n ≤ 2 ^ 63 - 1 then some (n : Int) else none) = _
    rw [hparse]
    simp only [hval, if_pos]
  refine ⟨hfull, ?_⟩
  show (match parseIntHex64 (hexEncode ((b0 :: b1 :: b2 :: b3 :: rest).take 4)) with
    | none => 0
    | some v => (v % 2 ^ 32).toNat) = _
  rw [hfull]
  show (((b0 * 16777216 + b1 * 65536 + b2 * 256 + b3 : Nat) : Int) % 2 ^ 32).toNat =
    b0 * 16777216 + b1 * 65536 + b2 * 256 + b3
  have hlt : ((b0 * 16777216 + b1 * 65536 + b2 * 256 + b3 : Nat) : Int) < 2 ^ 32 := by
    have hn : (b0 * 16777216 + b1 * 65536 + b2 * 256 + b3 : Nat) < 2 ^ 32 := by omega
    exact_mod_cast hn
  rw [Int.emod_eq_of_lt (Int.natCast_nonneg _) hlt]
  omega

/-- Claim C10, witness: the digest `[1, 2, 3, 4]` parses to the big-endian
value `0x01020304 = 16909060` without taking the fallback. -/
theorem claim_C10_witness : hashIPofDigest [1, 2, 3, 4] = 16909060 := by
  have h := (claim_C10 1 2 3 4 [] (by norm_num) (by norm_num) (by norm_num) (by norm_num)).2
  norm_num at h
  exact h

end GoLB
